import Mathlib

/-!
Shallow embedding of the QuizWind pure core:
`src/core/quiz-engine.ts` (selection, scoring, session, navigation) and
`src/core/progress-tracker.ts` (mastery classification, progress records,
statistics aggregation, weak-topic ranking).

JavaScript numbers are modelled as `Nat`/`Int`/`ℚ` (counts, indices and
fractional quantities respectively).  JavaScript `Math.round` becomes
`jsRound`, `Math.random`-driven choices become an explicit stream of
naturals, `Map` insertion-order semantics become association lists, and
the `Question | null` / `undefined` distinction of array indexing is kept
by the three-valued `JSValue`.
-/

/-- `QuizMode` from `src/types/index.ts`. -/
inductive QuizMode where
  | quiz
  | flashcard
  | timed
deriving DecidableEq, Repr

/-- `MasteryLevel` from `src/types/index.ts`. -/
inductive MasteryLevel where
  | new
  | learning
  | mastered
deriving DecidableEq, Repr

/-- `AnswerOption` from `src/types/index.ts`. -/
inductive AnswerOption where
  | a
  | b
  | c
  | d
deriving DecidableEq, Repr

/-- Grade band tag on a catalog question (`GradeLevel` in `src/types/index.ts`). -/
inductive GradeLevel where
  | g45
  | g68
deriving DecidableEq, Repr

/-- The grade-level selector of `QuizConfig` (`'4-5' | '6-8' | '9-12' | 'all'`). -/
inductive GradeFilter where
  | g45
  | g68
  | g912
  | all
deriving DecidableEq, Repr

/-- `q.gradeLevel === config.gradeLevel` across the two enumerations. -/
def gradeMatches (g : GradeLevel) (f : GradeFilter) : Bool :=
  match g, f with
  | .g45, .g45 => true
  | .g68, .g68 => true
  | _, _ => false

/-- The four labeled answer choices of a question. -/
structure AnswerChoices where
  a : String
  b : String
  c : String
  d : String
deriving DecidableEq, Repr

/-- `Question` from `src/types/index.ts`. -/
structure Question where
  id : String
  gradeLevel : GradeLevel
  question : String
  options : AnswerChoices
  correctAnswer : AnswerOption
  explanation : Option String
  topic : Option String
deriving DecidableEq, Repr

/-- `UserProgress` from `src/types/index.ts`; `lastAttempted` is an abstract
timestamp. -/
structure UserProgress where
  questionId : String
  attempts : Nat
  correctCount : Nat
  incorrectCount : Nat
  lastAttempted : Nat
  mastery : MasteryLevel
deriving DecidableEq, Repr

/-- `QuizSession` from `src/types/index.ts`. -/
structure QuizSession where
  mode : QuizMode
  questionsAnswered : Nat
  correctAnswers : Nat
  timeElapsed : ℚ
  score : ℤ
  startTime : Nat
deriving DecidableEq, Repr

/-- `QuizConfig` from `src/core/quiz-engine.ts`. -/
structure QuizConfig where
  mode : QuizMode
  gradeLevel : Option GradeFilter
  topic : Option String
  questionCount : Option Nat
deriving DecidableEq, Repr

/-- `ProgressStats` from `src/types/index.ts`; the `Map` becomes an
association list that keeps insertion order. -/
structure ProgressStats where
  totalQuestions : Nat
  newQuestions : Nat
  learningQuestions : Nat
  masteredQuestions : Nat
  overallAccuracy : ℚ
  topicBreakdown : List (String × Nat × Nat)
deriving DecidableEq, Repr

/-- JavaScript `Math.round`: round to nearest, midpoint toward `+∞`. -/
def jsRound (x : ℚ) : ℤ := ⌊x + 1 / 2⌋

/-- `calculateScore` from `src/core/quiz-engine.ts`, lines 49-66. -/
def calculateScore (correctAnswers totalQuestions : Nat) (timeElapsed : ℚ)
    (mode : QuizMode) : ℤ :=
  let baseScore : ℚ := ((correctAnswers : ℚ) / (totalQuestions : ℚ)) * 100
  if mode = QuizMode.timed then
    let avgTimePerQuestion := timeElapsed / (totalQuestions : ℚ)
    let timeBonus := max 0 (20 - avgTimePerQuestion)
    jsRound (baseScore + timeBonus)
  else
    jsRound baseScore

/-- `createSession` from `src/core/quiz-engine.ts`; `now` models `new Date()`. -/
def createSession (mode : QuizMode) (now : Nat) : QuizSession :=
  { mode := mode
    questionsAnswered := 0
    correctAnswers := 0
    timeElapsed := 0
    score := 0
    startTime := now }

/-- `updateSession` from `src/core/quiz-engine.ts`, lines 85-106. -/
def updateSession (session : QuizSession) (isCorrect : Bool) (timeTaken : ℚ) :
    QuizSession :=
  let newSession :=
    { session with
        questionsAnswered := session.questionsAnswered + 1
        correctAnswers := session.correctAnswers + (if isCorrect then 1 else 0)
        timeElapsed := session.timeElapsed + timeTaken }
  { newSession with
      score := calculateScore newSession.correctAnswers newSession.questionsAnswered
        newSession.timeElapsed newSession.mode }

/-- A JavaScript value of declared type `α | null`, which at runtime may
also be `undefined`. -/
inductive JSValue (α : Type) where
  | val (a : α)
  | null
  | undefined
deriving DecidableEq, Repr

/-- JavaScript array indexing `l[i]` with an integer index: a value when
`0 ≤ i < l.length`, `undefined` otherwise. -/
def jsIndex (l : List α) (i : ℤ) : JSValue α :=
  if 0 ≤ i then
    match l.get? i.toNat with
    | some a => JSValue.val a
    | none => JSValue.undefined
  else
    JSValue.undefined

/-- `getNextQuestion` from `src/core/quiz-engine.ts`, lines 111-116. -/
def getNextQuestion (questions : List Question) (currentIndex : ℤ) :
    JSValue Question :=
  if (questions.length : ℤ) ≤ currentIndex then
    JSValue.null
  else
    jsIndex questions currentIndex

/-- `isQuizComplete` from `src/core/quiz-engine.ts`, lines 121-123. -/
def isQuizComplete (currentIndex totalQuestions : ℤ) : Bool :=
  decide (totalQuestions ≤ currentIndex)

/-- One destructuring swap `[a[i], a[j]] = [a[j], a[i]]`: both cells are read
before either is written. Out-of-range indices leave the list unchanged
(never happens in the shuffle loop). -/
def swapCells (l : List α) (i j : Nat) : List α :=
  match l.get? i, l.get? j with
  | some a, some b => (l.set i b).set j a
  | _, _ => l

/-- The loop of `shuffleArray`: `for (i = n; i > 0; i--)` picks
`j = random() * (i+1) | floor` in `[0, i]` and swaps; the stream `r`
supplies the random draws. -/
def shuffleLoop (r : Nat → Nat) : List α → Nat → List α
  | l, 0 => l
  | l, i + 1 => shuffleLoop r (swapCells l (i + 1) (r (i + 1) % (i + 2))) i

/-- `shuffleArray` from `src/core/quiz-engine.ts`, lines 128-135
(Fisher-Yates), parametrized by the stream of random draws. -/
def shuffleArray (r : Nat → Nat) (l : List α) : List α :=
  shuffleLoop r l (l.length - 1)

/-- The filtering stage of `selectQuestions` (grade level, then topic).
An empty-string topic filter is skipped, as `if (config.topic)` is false
for `''`. -/
def filteredQuestions (allQuestions : List Question) (config : QuizConfig) :
    List Question :=
  let filtered := allQuestions
  let filtered :=
    match config.gradeLevel with
    | some g => if g ≠ GradeFilter.all then
        filtered.filter (fun q => gradeMatches q.gradeLevel g) else filtered
    | none => filtered
  match config.topic with
  | some t => if t ≠ "" then
      filtered.filter (fun q => q.topic == some t) else filtered
  | none => filtered

/-- `selectQuestions` from `src/core/quiz-engine.ts`, lines 18-37.
`config.questionCount || shuffled.length` treats a count of `0` like an
absent count. -/
def selectQuestions (allQuestions : List Question) (config : QuizConfig)
    (r : Nat → Nat) : List Question :=
  let shuffled := shuffleArray r (filteredQuestions allQuestions config)
  let count :=
    match config.questionCount with
    | some n => if n ≠ 0 then n else shuffled.length
    | none => shuffled.length
  shuffled.take count

/-- `calculateMastery` from `src/core/progress-tracker.ts`, lines 512-524. -/
def calculateMastery (progress : UserProgress) : MasteryLevel :=
  if progress.attempts < 3 then
    MasteryLevel.new
  else
    let accuracy : ℚ := (progress.correctCount : ℚ) / (progress.attempts : ℚ)
    if progress.attempts ≥ 5 ∧ accuracy ≥ 0.8 then
      MasteryLevel.mastered
    else
      MasteryLevel.learning

/-- `createProgress` from `src/core/progress-tracker.ts`, lines 474-483;
`now` models `new Date()`. -/
def createProgress (questionId : String) (now : Nat) : UserProgress :=
  { questionId := questionId
    attempts := 0
    correctCount := 0
    incorrectCount := 0
    lastAttempted := now
    mastery := MasteryLevel.new }

/-- `updateProgress` from `src/core/progress-tracker.ts`, lines 488-502. -/
def updateProgress (progress : UserProgress) (isCorrect : Bool) (now : Nat) :
    UserProgress :=
  let newProgress :=
    { progress with
        attempts := progress.attempts + 1
        correctCount := progress.correctCount + (if isCorrect then 1 else 0)
        incorrectCount := progress.incorrectCount + (if isCorrect then 0 else 1)
        lastAttempted := now }
  { newProgress with mastery := calculateMastery newProgress }

/-- `resetProgress` from `src/core/progress-tracker.ts`, lines 621-623. -/
def resetProgress (progress : UserProgress) (now : Nat) : UserProgress :=
  createProgress progress.questionId now

/-- One call into the progress API, tagged with the `new Date()` timestamp
observed during the call. -/
inductive ProgressOp where
  | update (isCorrect : Bool) (now : Nat)
  | reset (now : Nat)
deriving DecidableEq, Repr

/-- Apply one progress operation. -/
def applyOp (p : UserProgress) : ProgressOp → UserProgress
  | ProgressOp.update b now => updateProgress p b now
  | ProgressOp.reset now => resetProgress p now

/-- Run a sequence of progress operations left to right. -/
def runOps (p : UserProgress) (ops : List ProgressOp) : UserProgress :=
  ops.foldl applyOp p

/-- The record invariant of §3: counts are consistent and the stored
mastery agrees with the classification rule. -/
def ProgressInv (p : UserProgress) : Prop :=
  p.attempts = p.correctCount + p.incorrectCount ∧ p.mastery = calculateMastery p

instance (p : UserProgress) : Decidable (ProgressInv p) := by
  unfold ProgressInv; infer_instance

/-- `new Map(progressList.map(p => [p.questionId, p])).get(id)`: with
duplicate ids the later record wins, as `Map` construction overwrites. -/
def progressLookup (progressList : List UserProgress) (id : String) :
    Option UserProgress :=
  progressList.foldl (fun acc p => if p.questionId == id then some p else acc) none

/-- `Map.get` on an insertion-ordered association list. -/
def mapGet : List (String × α) → String → Option α
  | [], _ => none
  | e :: m, k => if e.1 == k then some e.2 else mapGet m k

/-- `Map.set` on an insertion-ordered association list: an existing key is
updated in place, a new key is appended at the end. -/
def mapSet : List (String × α) → String → α → List (String × α)
  | [], k, v => [(k, v)]
  | e :: m, k, v => if e.1 == k then (k, v) :: m else e :: mapSet m k v

/-- The mutable accumulator of `calculateStats`. -/
structure StatsAcc where
  newC : Nat
  learnC : Nat
  mastC : Nat
  totC : Nat
  totA : Nat
  breakdown : List (String × Nat × Nat)
deriving DecidableEq, Repr

/-- The body of the `allQuestions.forEach` loop in `calculateStats`.
`if (question.topic)` is false for a missing and for an empty topic. -/
def statsStep (progressList : List UserProgress) (acc : StatsAcc) (q : Question) :
    StatsAcc :=
  match progressLookup progressList q.id with
  | none => { acc with newC := acc.newC + 1 }
  | some p =>
    let acc1 :=
      match p.mastery with
      | MasteryLevel.new => { acc with newC := acc.newC + 1 }
      | MasteryLevel.learning => { acc with learnC := acc.learnC + 1 }
      | MasteryLevel.mastered => { acc with mastC := acc.mastC + 1 }
    let acc2 := { acc1 with totC := acc1.totC + p.correctCount,
                            totA := acc1.totA + p.attempts }
    match q.topic with
    | some t =>
      if t ≠ "" then
        let current := (mapGet acc2.breakdown t).getD (0, 0)
        { acc2 with breakdown := (mapSet acc2.breakdown t
            (current.1 + p.correctCount, current.2 + p.attempts)) }
      else acc2
    | none => acc2

/-- `calculateStats` from `src/core/progress-tracker.ts`, lines 529-585. -/
def calculateStats (progressList : List UserProgress)
    (allQuestions : List Question) : ProgressStats :=
  let acc := allQuestions.foldl (statsStep progressList)
    { newC := 0, learnC := 0, mastC := 0, totC := 0, totA := 0, breakdown := [] }
  { totalQuestions := allQuestions.length
    newQuestions := acc.newC
    learningQuestions := acc.learnC
    masteredQuestions := acc.mastC
    overallAccuracy :=
      if acc.totA > 0 then (acc.totC : ℚ) / (acc.totA : ℚ) else 0
    topicBreakdown := acc.breakdown }

/-- Accuracy/total triple built by `getWeakestTopics` for one breakdown
entry. -/
def topicTriple (e : String × Nat × Nat) : String × ℚ × Nat :=
  (e.1, (if e.2.2 > 0 then (e.2.1 : ℚ) / (e.2.2 : ℚ) else 0, e.2.2))

/-- The comparator `(a, b) => a.accuracy - b.accuracy` sorts ascending by
accuracy; JavaScript `Array.prototype.sort` is stable. -/
def accLe (a b : String × ℚ × Nat) : Prop := a.2.1 ≤ b.2.1

instance : DecidableRel accLe := fun a b =>
  inferInstanceAs (Decidable (a.2.1 ≤ b.2.1))

instance : IsTotal (String × ℚ × Nat) accLe :=
  ⟨fun a b => le_total a.2.1 b.2.1⟩

instance : IsTrans (String × ℚ × Nat) accLe :=
  ⟨fun _ _ _ h h' => le_trans h h'⟩

/-- The entries of the breakdown that survive the `total > 0` filter of
`getWeakestTopics`, as accuracy triples. -/
def keptTopics (stats : ProgressStats) : List (String × ℚ × Nat) :=
  (stats.topicBreakdown.map topicTriple).filter (fun t => 0 < t.2.2)

/-- `getWeakestTopics` from `src/core/progress-tracker.ts`, lines 605-616.
The stable ascending sort of the JavaScript runtime is realised by
insertion sort. -/
def getWeakestTopics (stats : ProgressStats) (limit : Nat) : List String :=
  let topics := (keptTopics stats).insertionSort accLe
  (topics.take limit).map (fun t => t.1)

/-!
Heap model for the frame claims: objects live in a heap (a list of
records) and a reference is an index. The "update" operations are rendered
step by step as the JavaScript runtime executes them: the spread literal
allocates a fresh object, and the subsequent field assignment writes only
to that fresh object.
-/

/-- `updateSession` acting on a heap of session objects: read `*ref`,
allocate the spread copy, then assign `newSession.score` in place. -/
def updateSessionH (h : List QuizSession) (ref : Nat) (isCorrect : Bool)
    (timeTaken : ℚ) : Option (List QuizSession × Nat) :=
  match h.get? ref with
  | none => none
  | some session =>
    let newSession :=
      { session with
          questionsAnswered := session.questionsAnswered + 1
          correctAnswers := session.correctAnswers + (if isCorrect then 1 else 0)
          timeElapsed := session.timeElapsed + timeTaken }
    let newRef := h.length
    let h1 := h ++ [newSession]
    let h2 := h1.set newRef
      { newSession with
          score := calculateScore newSession.correctAnswers
            newSession.questionsAnswered newSession.timeElapsed newSession.mode }
    some (h2, newRef)

/-- `updateProgress` acting on a heap of progress objects: read `*ref`,
allocate the spread copy, then assign `newProgress.mastery` in place. -/
def updateProgressH (h : List UserProgress) (ref : Nat) (isCorrect : Bool)
    (now : Nat) : Option (List UserProgress × Nat) :=
  match h.get? ref with
  | none => none
  | some progress =>
    let newProgress :=
      { progress with
          attempts := progress.attempts + 1
          correctCount := progress.correctCount + (if isCorrect then 1 else 0)
          incorrectCount := progress.incorrectCount + (if isCorrect then 0 else 1)
          lastAttempted := now }
    let newRef := h.length
    let h1 := h ++ [newProgress]
    let h2 := h1.set newRef { newProgress with mastery := calculateMastery newProgress }
    some (h2, newRef)

/-!  Concrete values used in witnesses and counterexamples. -/

/-- A demo catalog question tagged with the `wind` topic. -/
def demoQuestion : Question :=
  { id := "q1"
    gradeLevel := GradeLevel.g68
    question := "Which way does the wind blow?"
    options := { a := "N", b := "S", c := "E", d := "W" }
    correctAnswer := AnswerOption.a
    explanation := none
    topic := some "wind" }

/-- A second demo question with the `wind` topic. -/
def demoQuestion2 : Question :=
  { demoQuestion with id := "q2", question := "What drives the wind?" }

/-- A progress record with the given attempt counts (other fields fixed). -/
def mkProgress (a c : Nat) : UserProgress :=
  { questionId := "q1"
    attempts := a
    correctCount := c
    incorrectCount := a - c
    lastAttempted := 0
    mastery := MasteryLevel.new }

/-- Record for `demoQuestion`: 4 correct in 5 attempts, stored `mastered`. -/
def windP1 : UserProgress :=
  { questionId := "q1", attempts := 5, correctCount := 4, incorrectCount := 1,
    lastAttempted := 0, mastery := MasteryLevel.mastered }

/-- Record for `demoQuestion2`: 3 correct in 5 attempts, stored `learning`. -/
def windP2 : UserProgress :=
  { questionId := "q2", attempts := 5, correctCount := 3, incorrectCount := 2,
    lastAttempted := 0, mastery := MasteryLevel.learning }

/-- A config that supplies `questionCount = 0` and no filters. -/
def zeroCountConfig : QuizConfig :=
  { mode := QuizMode.quiz, gradeLevel := none, topic := none,
    questionCount := some 0 }

/-- The constant-zero random stream (each draw picks index 0). -/
def zeroStream : Nat → Nat := fun _ => 0

/-- A breakdown with two attempted topics and one unattempted topic. -/
def demoStats : ProgressStats :=
  { totalQuestions := 3, newQuestions := 1, learningQuestions := 1,
    masteredQuestions := 1, overallAccuracy := 7 / 10,
    topicBreakdown := [("wind", 7, 10), ("solar", 0, 0), ("gears", 1, 4)] }

/-- A config that supplies `questionCount = 1` and no filters. -/
def oneCountConfig : QuizConfig :=
  { mode := QuizMode.quiz, gradeLevel := none, topic := none,
    questionCount := some 1 }

/-- The catalog of the two `wind` questions. -/
def windCatalog : List Question := [demoQuestion, demoQuestion2]

/-- The progress records of the two `wind` questions. -/
def windRecords : List UserProgress := [windP1, windP2]

/-- A stats value with a single attempted topic. -/
def weakStats : ProgressStats :=
  { totalQuestions := 1, newQuestions := 0, learningQuestions := 1,
    masteredQuestions := 0, overallAccuracy := 7 / 10,
    topicBreakdown := [("wind", 7, 10)] }

/-- A one-cell heap holding a fresh progress record. -/
def demoHeap : List UserProgress := [createProgress "q1" 0]

/-- The heap after `updateProgress(*0, true)` at time 1: the original cell
plus the freshly allocated result. -/
def demoHeap2 : List UserProgress :=
  [createProgress "q1" 0, updateProgress (createProgress "q1" 0) true 1]

/-- Correct count contributed by a catalog question: its record's
`correctCount`, or 0 without a record. -/
def recordedCorrect (pl : List UserProgress) (q : Question) : Nat :=
  match progressLookup pl q.id with
  | some p => p.correctCount
  | none => 0

/-- Attempt count contributed by a catalog question: its record's
`attempts`, or 0 without a record. -/
def recordedAttempts (pl : List UserProgress) (q : Question) : Nat :=
  match progressLookup pl q.id with
  | some p => p.attempts
  | none => 0

/-- Whether a catalog question has a progress record. -/
def hasRecord (pl : List UserProgress) (q : Question) : Bool :=
  (progressLookup pl q.id).isSome

/-- Whether `calculateStats` counts this question in the `new` bucket:
no record, or a record stored as `new`. -/
def countsAsNew (pl : List UserProgress) (q : Question) : Bool :=
  match progressLookup pl q.id with
  | none => true
  | some p => p.mastery == MasteryLevel.new

/-- Whether this question has a record stored with the given mastery. -/
def storedAs (pl : List UserProgress) (q : Question) (lvl : MasteryLevel) : Bool :=
  match progressLookup pl q.id with
  | none => false
  | some p => p.mastery == lvl

/-- Whether a catalog question contributes to the topic breakdown at `t`:
it has a record and carries the (truthy) topic `t`. -/
def contributesTo (pl : List UserProgress) (q : Question) (t : String) : Bool :=
  hasRecord pl q && (q.topic == some t) && (t != "")

/-- Sum of record `correctCount`s over the contributors to topic `t`. -/
def topicCorrectSum (pl : List UserProgress) (qs : List Question) (t : String) :
    Nat :=
  ((qs.filter (fun q => contributesTo pl q t)).map (recordedCorrect pl)).sum

/-- Sum of record `attempts` over the contributors to topic `t`. -/
def topicAttemptSum (pl : List UserProgress) (qs : List Question) (t : String) :
    Nat :=
  ((qs.filter (fun q => contributesTo pl q t)).map (recordedAttempts pl)).sum

/-!  Helper lemmas. -/

theorem jsRound_mono {x y : ℚ} (h : x ≤ y) : jsRound x ≤ jsRound y :=
  Int.floor_le_floor (by linarith)

theorem calculateScore_timed_eq (c t : Nat) (e : ℚ) :
    calculateScore c t e QuizMode.timed =
      jsRound ((c : ℚ) / (t : ℚ) * 100 + max 0 (20 - e / (t : ℚ))) := by
  simp [calculateScore]

theorem calculateScore_other_eq (c t : Nat) (e : ℚ) {mode : QuizMode}
    (hmode : mode ≠ QuizMode.timed) :
    calculateScore c t e mode = jsRound ((c : ℚ) / (t : ℚ) * 100) := by
  simp [calculateScore, hmode]

theorem jsRound_lower (x : ℚ) : x - 1 / 2 < (jsRound x : ℚ) := by
  have h := Int.lt_floor_add_one (x + 1 / 2)
  unfold jsRound
  push_cast at h ⊢
  linarith

theorem jsRound_upper (x : ℚ) : (jsRound x : ℚ) ≤ x + 1 / 2 :=
  Int.floor_le _

theorem calculateMastery_ignores_rest {p q : UserProgress}
    (ha : p.attempts = q.attempts) (hc : p.correctCount = q.correctCount) :
    calculateMastery p = calculateMastery q := by
  simp only [calculateMastery, ha, hc]

theorem progressInv_create (id : String) (now : Nat) :
    ProgressInv (createProgress id now) := by
  constructor
  · rfl
  · rfl

theorem progressInv_update (p : UserProgress) (b : Bool) (now : Nat)
    (h : ProgressInv p) : ProgressInv (updateProgress p b now) := by
  obtain ⟨h1, _⟩ := h
  constructor
  · cases b <;> simp [updateProgress] <;> omega
  · show calculateMastery _ = _
    apply calculateMastery_ignores_rest <;> rfl

theorem progressInv_reset (p : UserProgress) (now : Nat) :
    ProgressInv (resetProgress p now) :=
  progressInv_create p.questionId now

theorem runOps_inv : ∀ (ops : List ProgressOp) (p : UserProgress),
    ProgressInv p → ProgressInv (runOps p ops)
  | [], _, h => h
  | op :: ops, p, h => by
    show ProgressInv (runOps (applyOp p op) ops)
    apply runOps_inv
    cases op with
    | update b now => exact progressInv_update p b now h
    | reset now => exact progressInv_reset p now

/-!  Claim theorems. -/

/-- C1: for `totalQuestions > 0`, `calculateScore` returns
`round(100 * c / t)` in the non-timed modes and
`round(100 * c / t + max(0, 20 - e / t))` in timed mode, where `round`
takes the nearest integer with midpoints rounding up; in particular
`calculateScore(8, 10, anyTime, quiz) = 80` and
`calculateScore(1, 3, 10, quiz) = 33`. -/
theorem calculateScore_spec :
    (∀ (c t : Nat) (e : ℚ) (mode : QuizMode), 0 < t → mode ≠ QuizMode.timed →
        calculateScore c t e mode = jsRound (100 * (c : ℚ) / (t : ℚ))) ∧
    (∀ (c t : Nat) (e : ℚ), 0 < t →
        calculateScore c t e QuizMode.timed =
          jsRound (100 * (c : ℚ) / (t : ℚ) + max 0 (20 - e / (t : ℚ)))) ∧
    (∀ x : ℚ, x - 1 / 2 < (jsRound x : ℚ) ∧ (jsRound x : ℚ) ≤ x + 1 / 2) ∧
    (∀ e : ℚ, calculateScore 8 10 e QuizMode.quiz = 80) ∧
    calculateScore 1 3 10 QuizMode.quiz = 33 := by
  refine ⟨?_, ?_, fun x => ⟨jsRound_lower x, jsRound_upper x⟩, ?_, ?_⟩
  · intro c t e mode _ hmode
    rw [calculateScore_other_eq c t e hmode]
    congr 1
    ring
  · intro c t e _
    rw [calculateScore_timed_eq]
    congr 1
    ring
  · intro e
    rw [calculateScore_other_eq 8 10 e (by decide)]
    unfold jsRound
    exact Int.floor_eq_iff.mpr ⟨by norm_num, by norm_num⟩
  · rw [calculateScore_other_eq 1 3 10 (by decide)]
    unfold jsRound
    exact Int.floor_eq_iff.mpr ⟨by norm_num, by norm_num⟩

/-- C1 witness: the theorem instantiated at `c = 1`, `t = 3`, `e = 10`. -/
theorem calculateScore_spec_witness :
    0 < 3 ∧ (QuizMode.quiz ≠ QuizMode.timed) ∧
      calculateScore 1 3 10 QuizMode.quiz =
        jsRound (100 * (1 : ℚ) / (3 : ℚ)) :=
  ⟨by decide, by decide,
    calculateScore_spec.1 1 3 10 QuizMode.quiz (by decide) (by decide)⟩

/-- C2: mastery is a pure function of `(attempts, correctCount)`:
fewer than 3 attempts is `new`; at least 3 attempts with fewer than 5
attempts or accuracy below 0.8 is `learning`; at least 5 attempts with
accuracy at least 0.8 is `mastered`; with the four concrete instances of
the claim. -/
theorem calculateMastery_spec :
    (∀ p q : UserProgress, p.attempts = q.attempts →
        p.correctCount = q.correctCount →
        calculateMastery p = calculateMastery q) ∧
    (∀ p : UserProgress, p.attempts < 3 → calculateMastery p = MasteryLevel.new) ∧
    (∀ p : UserProgress, 3 ≤ p.attempts →
        (p.attempts < 5 ∨ (p.correctCount : ℚ) / (p.attempts : ℚ) < 0.8) →
        calculateMastery p = MasteryLevel.learning) ∧
    (∀ p : UserProgress, 5 ≤ p.attempts →
        (0.8 : ℚ) ≤ (p.correctCount : ℚ) / (p.attempts : ℚ) →
        calculateMastery p = MasteryLevel.mastered) ∧
    (∀ c : Nat, calculateMastery (mkProgress 2 c) = MasteryLevel.new) ∧
    calculateMastery (mkProgress 5 4) = MasteryLevel.mastered ∧
    calculateMastery (mkProgress 4 4) = MasteryLevel.learning ∧
    calculateMastery (mkProgress 5 3) = MasteryLevel.learning := by
  refine ⟨fun p q ha hc => calculateMastery_ignores_rest ha hc, ?_, ?_, ?_,
    fun c => ?_, by norm_num [calculateMastery, mkProgress],
    by norm_num [calculateMastery, mkProgress],
    by norm_num [calculateMastery, mkProgress]⟩
  · intro p h
    simp [calculateMastery, h]
  · intro p h3 h
    simp only [calculateMastery]
    rw [if_neg (by omega), if_neg]
    rintro ⟨h5, hacc⟩
    rcases h with h | h
    · omega
    · exact absurd hacc (not_le.mpr h)
  · intro p h5 hacc
    simp only [calculateMastery]
    rw [if_neg (by omega), if_pos ⟨h5, hacc⟩]
  · show calculateMastery (mkProgress 2 c) = MasteryLevel.new
    simp [calculateMastery, mkProgress]

/-- C2 witness: the theorem instantiated at concrete records. -/
theorem calculateMastery_spec_witness :
    (mkProgress 5 3).attempts ≥ 3 ∧
      calculateMastery (mkProgress 5 3) = MasteryLevel.learning :=
  ⟨by decide, calculateMastery_spec.2.2.1 (mkProgress 5 3) (by decide)
    (Or.inr (by norm_num [mkProgress]))⟩

/-- C8: for fixed counts and positive `totalQuestions`, the timed score is
non-increasing in elapsed time, and `calculateScore(10, 10, 50, timed)`
exceeds 100. -/
theorem calculateScore_timed_monotone :
    (∀ (c t : Nat) (e1 e2 : ℚ), 0 < t → e1 ≤ e2 →
        calculateScore c t e2 QuizMode.timed ≤
          calculateScore c t e1 QuizMode.timed) ∧
    calculateScore 10 10 50 QuizMode.timed > 100 := by
  constructor
  · intro c t e1 e2 ht he
    have htq : (0 : ℚ) < (t : ℚ) := by exact_mod_cast ht
    rw [calculateScore_timed_eq, calculateScore_timed_eq]
    apply jsRound_mono
    have hdiv : e1 / (t : ℚ) ≤ e2 / (t : ℚ) := by gcongr
    have : max 0 (20 - e2 / (t : ℚ)) ≤ max 0 (20 - e1 / (t : ℚ)) := by
      apply max_le_max le_rfl
      linarith
    linarith
  · have hc : ((10 : Nat) : ℚ) = 10 := by norm_num
    rw [calculateScore_timed_eq, hc,
      max_eq_right (by norm_num : (0 : ℚ) ≤ 20 - 50 / 10)]
    have h115 : jsRound ((10 : ℚ) / 10 * 100 + (20 - 50 / 10)) = 115 := by
      unfold jsRound
      exact Int.floor_eq_iff.mpr ⟨by norm_num, by norm_num⟩
    rw [h115]
    norm_num

/-- C8 witness: the theorem instantiated at `c = 10`, `t = 10`,
`e1 = 30`, `e2 = 50`. -/
theorem calculateScore_timed_monotone_witness :
    0 < 10 ∧ (30 : ℚ) ≤ 50 ∧
      calculateScore 10 10 50 QuizMode.timed ≤
        calculateScore 10 10 30 QuizMode.timed :=
  ⟨by decide, by norm_num,
    calculateScore_timed_monotone.1 10 10 30 50 (by decide) (by norm_num)⟩

/-- C9 counterexample: at index `-1` on a one-question list the index is
out of range, yet `getNextQuestion` does not return its explicit `null`
result (it returns `undefined` from the array access). -/
theorem getNextQuestion_negative_index :
    ¬(0 ≤ (-1 : ℤ) ∧ (-1 : ℤ) < ([demoQuestion].length : ℤ)) ∧
      getNextQuestion [demoQuestion] (-1) = JSValue.undefined ∧
      getNextQuestion [demoQuestion] (-1) ≠ JSValue.null := by
  refine ⟨by decide, by decide, by decide⟩

/-- C9 amended: `getNextQuestion` never throws (it is total); it returns
the question at the index when `0 ≤ index < length`; it returns its
explicit `null` result when `index ≥ length`; for a negative index it
returns `undefined` — an absent value, but not the explicit `null`. -/
theorem getNextQuestion_spec :
    ∀ (qs : List Question) (i : ℤ),
      (i < 0 → getNextQuestion qs i = JSValue.undefined) ∧
      ((qs.length : ℤ) ≤ i → getNextQuestion qs i = JSValue.null) ∧
      (∀ q : Question, 0 ≤ i → qs.get? i.toNat = some q →
          getNextQuestion qs i = JSValue.val q) := by
  intro qs i
  refine ⟨?_, ?_, ?_⟩
  · intro hneg
    have : ¬((qs.length : ℤ) ≤ i) := by omega
    simp only [getNextQuestion, if_neg this, jsIndex, if_neg (by omega : ¬(0 ≤ i))]
  · intro hge
    simp only [getNextQuestion, if_pos hge]
  · intro q hpos hget
    have hlt : i.toNat < qs.length := List.get?_eq_some.mp hget |>.1
    have : ¬((qs.length : ℤ) ≤ i) := by omega
    simp only [getNextQuestion, if_neg this, jsIndex, if_pos hpos, hget]

/-- C9 witness: the amended theorem instantiated at a one-question list. -/
theorem getNextQuestion_spec_witness :
    ((-1 : ℤ) < 0 ∧ getNextQuestion [demoQuestion] (-1) = JSValue.undefined) ∧
      ((1 : ℤ) ≤ 2 ∧ getNextQuestion [demoQuestion] 2 = JSValue.null) ∧
      (0 ≤ (0 : ℤ) ∧ getNextQuestion [demoQuestion] 0 = JSValue.val demoQuestion) :=
  ⟨⟨by decide, (getNextQuestion_spec [demoQuestion] (-1)).1 (by decide)⟩,
   ⟨by decide, (getNextQuestion_spec [demoQuestion] 2).2.1 (by decide)⟩,
   ⟨by decide, (getNextQuestion_spec [demoQuestion] 0).2.2 demoQuestion
      (by decide) (by decide)⟩⟩

/-- C10: for every non-negative index, `isQuizComplete(i, qs.length)` holds
exactly when `getNextQuestion(qs, i)` is the `null` result. -/
theorem isQuizComplete_agrees_getNextQuestion :
    ∀ (qs : List Question) (i : ℤ), 0 ≤ i →
      (isQuizComplete i (qs.length : ℤ) = true ↔
        getNextQuestion qs i = JSValue.null) := by
  intro qs i hpos
  by_cases hge : (qs.length : ℤ) ≤ i
  · simp [isQuizComplete, hge, getNextQuestion]
  · have hlt : i.toNat < qs.length := by omega
    simp only [isQuizComplete, getNextQuestion, if_neg hge, decide_eq_true_eq]
    constructor
    · intro h
      exact absurd h hge
    · intro h
      rw [jsIndex, if_pos hpos, List.get?_eq_get hlt] at h
      exact absurd h (by simp)

/-- C10 witness: the theorem instantiated at a one-question list with
index 0 (incomplete) and index 1 (complete). -/
theorem isQuizComplete_agrees_witness :
    (0 ≤ (0 : ℤ) ∧
      (isQuizComplete 0 (([demoQuestion].length : Nat) : ℤ) = true ↔
        getNextQuestion [demoQuestion] 0 = JSValue.null)) ∧
    (0 ≤ (1 : ℤ) ∧
      (isQuizComplete 1 (([demoQuestion].length : Nat) : ℤ) = true ↔
        getNextQuestion [demoQuestion] 1 = JSValue.null)) :=
  ⟨⟨by decide, isQuizComplete_agrees_getNextQuestion [demoQuestion] 0 (by decide)⟩,
   ⟨by decide, isQuizComplete_agrees_getNextQuestion [demoQuestion] 1 (by decide)⟩⟩

/-- C4: `createProgress` and `resetProgress` establish the invariant
`attempts = correctCount + incorrectCount` with the stored mastery equal
to the classification of `(attempts, correctCount)`; `updateProgress`
preserves it; hence every sequence of these operations starting from
`createProgress` maintains it. -/
theorem progress_invariant :
    (∀ (id : String) (now : Nat), ProgressInv (createProgress id now)) ∧
    (∀ (p : UserProgress) (b : Bool) (now : Nat), ProgressInv p →
        ProgressInv (updateProgress p b now)) ∧
    (∀ (p : UserProgress) (now : Nat), ProgressInv (resetProgress p now)) ∧
    (∀ (id : String) (now : Nat) (ops : List ProgressOp),
        ProgressInv (runOps (createProgress id now) ops)) :=
  ⟨progressInv_create, progressInv_update, progressInv_reset,
   fun id now ops => runOps_inv ops (createProgress id now)
      (progressInv_create id now)⟩

/-- C4 witness: the theorem instantiated at a concrete record and a
concrete operation sequence. -/
theorem progress_invariant_witness :
    ProgressInv (mkProgress 0 0) ∧
      ProgressInv (updateProgress (mkProgress 0 0) true 1) ∧
      ProgressInv (runOps (createProgress "q1" 0)
        [ProgressOp.update true 1, ProgressOp.update false 2, ProgressOp.reset 3]) :=
  ⟨⟨rfl, rfl⟩, progress_invariant.2.1 (mkProgress 0 0) true 1 ⟨rfl, rfl⟩,
    progress_invariant.2.2.2 "q1" 0
      [ProgressOp.update true 1, ProgressOp.update false 2, ProgressOp.reset 3]⟩

open scoped List

theorem cons_get_set_perm :
    ∀ (t : List α) (m : Nat) (h : m < t.length) (x : α),
      t.get ⟨m, h⟩ :: t.set m x ~ x :: t
  | _ :: t', 0, _, x => List.Perm.swap x _ t'
  | b :: t', m + 1, h, x => by
    have hm : m < t'.length := by simpa using h
    show t'.get ⟨m, hm⟩ :: b :: t'.set m x ~ x :: b :: t'
    calc t'.get ⟨m, hm⟩ :: b :: t'.set m x
        ~ b :: t'.get ⟨m, hm⟩ :: t'.set m x := List.Perm.swap b _ _
      _ ~ b :: x :: t' := (cons_get_set_perm t' m hm x).cons b
      _ ~ x :: b :: t' := List.Perm.swap x b t'

theorem set_set_get_perm :
    ∀ (l : List α) (i j : Nat) (hi : i < l.length) (hj : j < l.length),
      (l.set i (l.get ⟨j, hj⟩)).set j (l.get ⟨i, hi⟩) ~ l
  | a :: t, 0, 0, _, _ => by
    show a :: t ~ a :: t
    exact List.Perm.refl _
  | a :: t, 0, k + 1, hi, hj => by
    have hk : k < t.length := by simpa using hj
    show t.get ⟨k, hk⟩ :: t.set k a ~ a :: t
    exact cons_get_set_perm t k hk a
  | a :: t, m + 1, 0, hi, hj => by
    have hm : m < t.length := by simpa using hi
    show t.get ⟨m, hm⟩ :: t.set m a ~ a :: t
    exact cons_get_set_perm t m hm a
  | a :: t, m + 1, k + 1, hi, hj => by
    have hm : m < t.length := by simpa using hi
    have hk : k < t.length := by simpa using hj
    show a :: (t.set m (t.get ⟨k, hk⟩)).set k (t.get ⟨m, hm⟩) ~ a :: t
    exact (set_set_get_perm t m k hm hk).cons a

theorem swapCells_perm (l : List α) (i j : Nat) : swapCells l i j ~ l := by
  rcases h1 : l.get? i with _ | a
  · have he : swapCells l i j = l := by
      unfold swapCells
      rw [h1]
    rw [he]
  · rcases h2 : l.get? j with _ | b
    · have he : swapCells l i j = l := by
        unfold swapCells
        rw [h1, h2]
      rw [he]
    · obtain ⟨hi, ha⟩ := List.get?_eq_some.mp h1
      obtain ⟨hj, hb⟩ := List.get?_eq_some.mp h2
      have he : swapCells l i j = (l.set i b).set j a := by
        unfold swapCells
        rw [h1, h2]
      rw [he, ← ha, ← hb]
      exact set_set_get_perm l i j hi hj

theorem shuffleLoop_perm (r : Nat → Nat) :
    ∀ (n : Nat) (l : List α), shuffleLoop r l n ~ l
  | 0, l => List.Perm.refl l
  | n + 1, l =>
    (shuffleLoop_perm r n _).trans (swapCells_perm l (n + 1) (r (n + 1) % (n + 2)))

theorem shuffleArray_perm (r : Nat → Nat) (l : List α) : shuffleArray r l ~ l :=
  shuffleLoop_perm r (l.length - 1) l

/-- C3 counterexample: with `questionCount = 0` supplied, the output
length is the full filtered size, not `min 0 filteredSize`, because
`config.questionCount || shuffled.length` treats 0 as absent. -/
theorem selectQuestions_zero_count :
    zeroCountConfig.questionCount = some 0 ∧
      (selectQuestions [demoQuestion] zeroCountConfig zeroStream).length ≠
        min 0 (filteredQuestions [demoQuestion] zeroCountConfig).length := by
  exact ⟨rfl, by decide⟩

/-- C3 amended: for every catalog, config and shuffle outcome the output
is a multiset subset of the filtered catalog; when a positive count is
supplied the length is `min(count, filteredSize)`; when the count is
absent — or supplied as 0, which the code treats as absent — the length
is the filtered size. -/
theorem selectQuestions_spec :
    ∀ (qs : List Question) (cfg : QuizConfig) (r : Nat → Nat),
      ((selectQuestions qs cfg r : Multiset Question) ≤
        (filteredQuestions qs cfg : Multiset Question)) ∧
      (∀ n : Nat, cfg.questionCount = some n → n ≠ 0 →
        (selectQuestions qs cfg r).length =
          min n (filteredQuestions qs cfg).length) ∧
      ((cfg.questionCount = none ∨ cfg.questionCount = some 0) →
        (selectQuestions qs cfg r).length = (filteredQuestions qs cfg).length) := by
  intro qs cfg r
  have hperm : shuffleArray r (filteredQuestions qs cfg) ~
      filteredQuestions qs cfg := shuffleArray_perm r _
  refine ⟨?_, ?_, ?_⟩
  · apply Multiset.coe_le.mpr
    obtain ⟨k, hk⟩ : ∃ k, selectQuestions qs cfg r =
        (shuffleArray r (filteredQuestions qs cfg)).take k := ⟨_, rfl⟩
    rw [hk]
    exact (List.take_sublist k _).subperm.trans hperm.subperm
  · intro n hn hnz
    have he : selectQuestions qs cfg r =
        (shuffleArray r (filteredQuestions qs cfg)).take n := by
      simp [selectQuestions, hn, hnz]
    rw [he, List.length_take, hperm.length_eq]
  · intro h
    have he : selectQuestions qs cfg r =
        (shuffleArray r (filteredQuestions qs cfg)).take
          (shuffleArray r (filteredQuestions qs cfg)).length := by
      rcases h with h | h <;> simp [selectQuestions, h]
    rw [he, List.take_length, hperm.length_eq]

/-- C3 witness: the amended theorem instantiated at the two-question
catalog with a supplied count of 1. -/
theorem selectQuestions_spec_witness :
    oneCountConfig.questionCount = some 1 ∧ (1 : Nat) ≠ 0 ∧
      (selectQuestions windCatalog oneCountConfig zeroStream).length =
        min 1 (filteredQuestions windCatalog oneCountConfig).length :=
  ⟨rfl, by decide,
    (selectQuestions_spec windCatalog oneCountConfig zeroStream).2.1 1 rfl
      (by decide)⟩

theorem set_append_singleton :
    ∀ (l : List α) (x y : α), (l ++ [x]).set l.length y = l ++ [y]
  | [], _, _ => rfl
  | a :: t, x, y => by
    show a :: (t ++ [x]).set t.length y = a :: (t ++ [y])
    rw [set_append_singleton t x y]

theorem get?_append_singleton :
    ∀ (l : List α) (y : α), (l ++ [y]).get? l.length = some y
  | [], _ => rfl
  | _ :: t, y => get?_append_singleton t y

/-- C6: on the heap model, `updateSession` and `updateProgress` allocate a
fresh object and write only to it: every cell of the original heap —
in particular the argument's — holds a deep-equal value afterwards, and
the returned reference holds the value of the pure update function. -/
theorem update_operations_pure :
    (∀ (h : List QuizSession) (ref : Nat) (b : Bool) (t : ℚ)
        (h2 : List QuizSession) (r2 : Nat),
        updateSessionH h ref b t = some (h2, r2) →
          (∀ i, i < h.length → h2.get? i = h.get? i) ∧
          h2.get? ref = h.get? ref ∧
          (∀ s, h.get? ref = some s →
            h2.get? r2 = some (updateSession s b t))) ∧
    (∀ (h : List UserProgress) (ref : Nat) (b : Bool) (now : Nat)
        (h2 : List UserProgress) (r2 : Nat),
        updateProgressH h ref b now = some (h2, r2) →
          (∀ i, i < h.length → h2.get? i = h.get? i) ∧
          h2.get? ref = h.get? ref ∧
          (∀ p, h.get? ref = some p →
            h2.get? r2 = some (updateProgress p b now))) := by
  constructor
  · intro h ref b t h2 r2 hcall
    rcases hr : h.get? ref with _ | s
    · unfold updateSessionH at hcall
      rw [hr] at hcall
      exact absurd hcall (by simp)
    · unfold updateSessionH at hcall
      rw [hr] at hcall
      simp only [Option.some.injEq, Prod.mk.injEq] at hcall
      obtain ⟨hh2, hr2⟩ := hcall
      rw [set_append_singleton] at hh2
      have hframe : ∀ i, i < h.length → h2.get? i = h.get? i := by
        intro i hi
        rw [← hh2, List.get?_append hi]
      have href : ref < h.length := (List.get?_eq_some.mp hr).1
      refine ⟨hframe, (hframe ref href).trans hr, ?_⟩
      intro s' hs'
      cases hs'
      rw [← hh2, ← hr2, get?_append_singleton]
      rfl
  · intro h ref b now h2 r2 hcall
    rcases hr : h.get? ref with _ | p
    · unfold updateProgressH at hcall
      rw [hr] at hcall
      exact absurd hcall (by simp)
    · unfold updateProgressH at hcall
      rw [hr] at hcall
      simp only [Option.some.injEq, Prod.mk.injEq] at hcall
      obtain ⟨hh2, hr2⟩ := hcall
      rw [set_append_singleton] at hh2
      have hframe : ∀ i, i < h.length → h2.get? i = h.get? i := by
        intro i hi
        rw [← hh2, List.get?_append hi]
      have href : ref < h.length := (List.get?_eq_some.mp hr).1
      refine ⟨hframe, (hframe ref href).trans hr, ?_⟩
      intro p' hp'
      cases hp'
      rw [← hh2, ← hr2, get?_append_singleton]
      rfl

/-- C6 witness: the theorem instantiated on a one-cell progress heap. -/
theorem update_operations_pure_witness :
    updateProgressH demoHeap 0 true 1 = some (demoHeap2, 1) ∧
      demoHeap2.get? 0 = demoHeap.get? 0 ∧
      demoHeap2.get? 1 = some (updateProgress (createProgress "q1" 0) true 1) := by
  have hcall : updateProgressH demoHeap 0 true 1 = some (demoHeap2, 1) := by decide
  have h := update_operations_pure.2 demoHeap 0 true 1 demoHeap2 1 hcall
  exact ⟨hcall, h.2.1, h.2.2 (createProgress "q1" 0) (by decide)⟩

theorem filter_orderedInsert_acc (q : ℚ) (x : String × ℚ × Nat) :
    ∀ l : List (String × ℚ × Nat),
      (List.orderedInsert accLe x l).filter (fun e => decide (e.2.1 = q)) =
        if x.2.1 = q then
          x :: l.filter (fun e => decide (e.2.1 = q))
        else l.filter (fun e => decide (e.2.1 = q))
  | [] => by
    by_cases hx : x.2.1 = q <;> simp [List.orderedInsert, hx]
  | b :: l => by
    by_cases hle : accLe x b
    · rw [List.orderedInsert, if_pos hle]
      by_cases hx : x.2.1 = q <;> by_cases hb : b.2.1 = q <;>
        simp [List.filter_cons, hx, hb]
    · rw [List.orderedInsert, if_neg hle, List.filter_cons, List.filter_cons,
        filter_orderedInsert_acc q x l]
      have hlt : b.2.1 < x.2.1 := not_le.mp hle
      by_cases hx : x.2.1 = q
      · have hb : ¬(b.2.1 = q) := by
          intro hbq
          exact absurd hlt (by rw [hbq, hx]; exact lt_irrefl q)
        simp [hx, hb]
      · by_cases hb : b.2.1 = q <;> simp [hx, hb]

theorem filter_insertionSort_acc (q : ℚ) :
    ∀ l : List (String × ℚ × Nat),
      (l.insertionSort accLe).filter (fun e => decide (e.2.1 = q)) =
        l.filter (fun e => decide (e.2.1 = q))
  | [] => rfl
  | x :: l => by
    show (List.orderedInsert accLe x (l.insertionSort accLe)).filter _ = _
    rw [filter_orderedInsert_acc q x (l.insertionSort accLe),
      filter_insertionSort_acc q l, List.filter_cons]
    by_cases hx : x.2.1 = q <;> simp [hx]

/-- C7: `getWeakestTopics` returns at most `limit` names; every returned
name belongs to a breakdown entry with a positive total; and the result is
the prefix of the stable ascending-accuracy rearrangement of the surviving
entries: that rearrangement is sorted by accuracy, is a permutation of the
filtered entries, and preserves the original relative order inside every
accuracy class (ties keep insertion order). -/
theorem getWeakestTopics_spec :
    ∀ (stats : ProgressStats) (limit : Nat),
      (getWeakestTopics stats limit).length ≤ limit ∧
      (∀ t, t ∈ getWeakestTopics stats limit → ∃ c tot : Nat,
          (t, c, tot) ∈ stats.topicBreakdown ∧ 0 < tot) ∧
      List.Sorted accLe ((keptTopics stats).insertionSort accLe) ∧
      ((keptTopics stats).insertionSort accLe ~ keptTopics stats) ∧
      (∀ q : ℚ, ((keptTopics stats).insertionSort accLe).filter
          (fun e => decide (e.2.1 = q)) =
        (keptTopics stats).filter (fun e => decide (e.2.1 = q))) ∧
      getWeakestTopics stats limit =
        (((keptTopics stats).insertionSort accLe).take limit).map
          (fun t => t.1) := by
  intro stats limit
  refine ⟨?_, ?_, List.sorted_insertionSort accLe _,
    List.perm_insertionSort accLe _,
    fun q => filter_insertionSort_acc q (keptTopics stats), rfl⟩
  · show ((((keptTopics stats).insertionSort accLe).take limit).map
      (fun t => t.1)).length ≤ limit
    rw [List.length_map, List.length_take]
    exact min_le_left _ _
  · intro t ht
    obtain ⟨e, he, rfl⟩ := List.mem_map.mp ht
    have he1 : e ∈ (keptTopics stats).insertionSort accLe :=
      (List.take_sublist limit _).subset he
    have he2 : e ∈ keptTopics stats :=
      (List.perm_insertionSort accLe _).subset he1
    obtain ⟨hem, hpos⟩ := List.mem_filter.mp he2
    obtain ⟨b, hb, rfl⟩ := List.mem_map.mp hem
    refine ⟨b.2.1, b.2.2, ?_, ?_⟩
    · show (b.1, b.2.1, b.2.2) ∈ stats.topicBreakdown
      exact hb
    · simpa using hpos

/-- C7 witness: the theorem instantiated at a single-topic stats value. -/
theorem getWeakestTopics_spec_witness :
    "wind" ∈ getWeakestTopics weakStats 1 ∧
      ∃ c tot : Nat, ("wind", c, tot) ∈ weakStats.topicBreakdown ∧ 0 < tot :=
  ⟨by decide, (getWeakestTopics_spec weakStats 1).2.1 "wind" (by decide)⟩

theorem mapGet_set_self (m : List (String × α)) (k : String) (v : α) :
    mapGet (mapSet m k v) k = some v := by
  induction m with
  | nil => simp [mapGet, mapSet]
  | cons e m ih =>
    by_cases he : e.1 = k
    · simp [mapGet, mapSet, he]
    · simp [mapGet, mapSet, he, ih]

theorem mapGet_set_ne (m : List (String × α)) {k k' : String} (v : α)
    (h : k ≠ k') : mapGet (mapSet m k v) k' = mapGet m k' := by
  induction m with
  | nil => simp [mapGet, mapSet, h]
  | cons e m ih =>
    by_cases he : e.1 = k
    · have he' : ¬(e.1 = k') := by rw [he]; exact h
      simp [mapGet, mapSet, he, he', h]
    · by_cases he' : e.1 = k'
      · simp [mapGet, mapSet, he, he', Ne.symm h]
      · simp [mapGet, mapSet, he, he', ih]

theorem statsStep_counts (pl : List UserProgress) (acc : StatsAcc) (q : Question) :
    (statsStep pl acc q).newC = acc.newC + (if countsAsNew pl q then 1 else 0) ∧
    (statsStep pl acc q).learnC =
      acc.learnC + (if storedAs pl q MasteryLevel.learning then 1 else 0) ∧
    (statsStep pl acc q).mastC =
      acc.mastC + (if storedAs pl q MasteryLevel.mastered then 1 else 0) ∧
    (statsStep pl acc q).totC = acc.totC + recordedCorrect pl q ∧
    (statsStep pl acc q).totA = acc.totA + recordedAttempts pl q := by
  rcases hl : progressLookup pl q.id with _ | p
  · simp [statsStep, countsAsNew, storedAs, recordedCorrect, recordedAttempts, hl]
  · rcases hm : p.mastery <;> rcases ht : q.topic with _ | s <;>
      simp [statsStep, countsAsNew, storedAs, recordedCorrect, recordedAttempts,
        hl, hm, ht] <;>
      split_ifs <;> simp

theorem statsStep_breakdown (pl : List UserProgress) (acc : StatsAcc)
    (q : Question) (t : String) :
    mapGet (statsStep pl acc q).breakdown t =
      if contributesTo pl q t then
        some (((mapGet acc.breakdown t).getD (0, 0)).1 + recordedCorrect pl q,
              ((mapGet acc.breakdown t).getD (0, 0)).2 + recordedAttempts pl q)
      else mapGet acc.breakdown t := by
  rcases hl : progressLookup pl q.id with _ | p
  · simp [statsStep, contributesTo, hasRecord, hl]
  · rcases ht : q.topic with _ | s
    · rcases hm : p.mastery <;>
        simp [statsStep, contributesTo, hasRecord, hl, ht, hm]
    · by_cases hs : s = ""
      · rcases hm : p.mastery <;>
          simp [statsStep, contributesTo, hasRecord, hl, ht, hm, hs] <;>
          rw [if_neg (fun hc => hc.2 hc.1.symm)]
      · by_cases hts : t = s
        · subst hts
          rcases hm : p.mastery <;>
            simp [statsStep, contributesTo, hasRecord, recordedCorrect,
              recordedAttempts, hl, ht, hm, hs, mapGet_set_self]
        · rcases hm : p.mastery <;>
            simp [statsStep, contributesTo, hasRecord, hl, ht, hm, hs,
              Ne.symm hts, mapGet_set_ne _ _ (fun h => hts h.symm)]

theorem foldl_statsStep_counts (pl : List UserProgress) :
    ∀ (qs : List Question) (acc : StatsAcc),
      (qs.foldl (statsStep pl) acc).newC =
        acc.newC + (qs.filter (fun q => countsAsNew pl q)).length ∧
      (qs.foldl (statsStep pl) acc).learnC =
        acc.learnC +
          (qs.filter (fun q => storedAs pl q MasteryLevel.learning)).length ∧
      (qs.foldl (statsStep pl) acc).mastC =
        acc.mastC +
          (qs.filter (fun q => storedAs pl q MasteryLevel.mastered)).length ∧
      (qs.foldl (statsStep pl) acc).totC =
        acc.totC + (qs.map (recordedCorrect pl)).sum ∧
      (qs.foldl (statsStep pl) acc).totA =
        acc.totA + (qs.map (recordedAttempts pl)).sum
  | [], acc => by simp
  | q :: qs, acc => by
    obtain ⟨h1, h2, h3, h4, h5⟩ := foldl_statsStep_counts pl qs (statsStep pl acc q)
    obtain ⟨s1, s2, s3, s4, s5⟩ := statsStep_counts pl acc q
    rw [List.foldl_cons]
    refine ⟨?_, ?_, ?_, ?_, ?_⟩
    · rw [h1, s1, List.filter_cons]
      split_ifs <;> simp <;> omega
    · rw [h2, s2, List.filter_cons]
      split_ifs <;> simp <;> omega
    · rw [h3, s3, List.filter_cons]
      split_ifs <;> simp <;> omega
    · rw [h4, s4, List.map_cons, List.sum_cons]
      omega
    · rw [h5, s5, List.map_cons, List.sum_cons]
      omega

theorem foldl_statsStep_breakdown (pl : List UserProgress) (t : String) :
    ∀ (qs : List Question) (acc : StatsAcc),
      mapGet (qs.foldl (statsStep pl) acc).breakdown t =
        if (qs.filter (fun q => contributesTo pl q t)).isEmpty then
          mapGet acc.breakdown t
        else
          some (((mapGet acc.breakdown t).getD (0, 0)).1 + topicCorrectSum pl qs t,
                ((mapGet acc.breakdown t).getD (0, 0)).2 + topicAttemptSum pl qs t)
  | [], acc => by simp [topicCorrectSum, topicAttemptSum]
  | q :: qs, acc => by
    rw [List.foldl_cons, foldl_statsStep_breakdown pl t qs (statsStep pl acc q)]
    have hstep := statsStep_breakdown pl acc q t
    by_cases hc : contributesTo pl q t
    · rw [if_pos hc] at hstep
      rw [hstep]
      have hf : List.filter (fun q => contributesTo pl q t) (q :: qs) =
          q :: List.filter (fun q => contributesTo pl q t) qs := by
        rw [List.filter_cons, if_pos hc]
      have hC : topicCorrectSum pl (q :: qs) t =
          recordedCorrect pl q + topicCorrectSum pl qs t := by
        unfold topicCorrectSum
        rw [hf, List.map_cons, List.sum_cons]
      have hA : topicAttemptSum pl (q :: qs) t =
          recordedAttempts pl q + topicAttemptSum pl qs t := by
        unfold topicAttemptSum
        rw [hf, List.map_cons, List.sum_cons]
      rw [hf, hC, hA, List.isEmpty_cons, if_neg Bool.false_ne_true]
      by_cases he : (qs.filter (fun q => contributesTo pl q t)).isEmpty
      · rw [if_pos he]
        have he' : qs.filter (fun q => contributesTo pl q t) = [] :=
          List.isEmpty_iff.mp he
        have hC0 : topicCorrectSum pl qs t = 0 := by
          unfold topicCorrectSum
          rw [he']
          rfl
        have hA0 : topicAttemptSum pl qs t = 0 := by
          unfold topicAttemptSum
          rw [he']
          rfl
        rw [hC0, hA0]
        simp
      · rw [if_neg he]
        simp only [Option.getD_some, Option.some.injEq, Prod.mk.injEq]
        constructor <;> omega
    · rw [if_neg hc] at hstep
      rw [hstep]
      have hf : List.filter (fun q => contributesTo pl q t) (q :: qs) =
          List.filter (fun q => contributesTo pl q t) qs := by
        rw [List.filter_cons, if_neg hc]
      have hC : topicCorrectSum pl (q :: qs) t = topicCorrectSum pl qs t := by
        unfold topicCorrectSum
        rw [hf]
      have hA : topicAttemptSum pl (q :: qs) t = topicAttemptSum pl qs t := by
        unfold topicAttemptSum
        rw [hf]
      rw [hf, hC, hA]

/-- C5: `calculateStats` counts a recordless catalog question as `new`,
buckets recorded questions by their stored mastery tag, computes overall
accuracy as totalCorrect/totalAttempts over recorded questions (0 with no
attempts), and its topic breakdown at each topic holds the sums of
(correctCount, attempts) over catalog questions with that topic that have
a record — recordless and topicless questions contribute nothing; on the
two `wind` questions with records (4 of 5) and (3 of 5) the `wind`
breakdown is `(7, 10)`. -/
theorem calculateStats_spec :
    ∀ (pl : List UserProgress) (qs : List Question),
      (calculateStats pl qs).newQuestions =
        (qs.filter (fun q => countsAsNew pl q)).length ∧
      (calculateStats pl qs).learningQuestions =
        (qs.filter (fun q => storedAs pl q MasteryLevel.learning)).length ∧
      (calculateStats pl qs).masteredQuestions =
        (qs.filter (fun q => storedAs pl q MasteryLevel.mastered)).length ∧
      (calculateStats pl qs).overallAccuracy =
        (if 0 < (qs.map (recordedAttempts pl)).sum then
          (((qs.map (recordedCorrect pl)).sum : ℚ) /
            ((qs.map (recordedAttempts pl)).sum : ℚ))
        else 0) ∧
      (∀ t : String,
        mapGet (calculateStats pl qs).topicBreakdown t =
          if (qs.filter (fun q => contributesTo pl q t)).isEmpty then none
          else some (topicCorrectSum pl qs t, topicAttemptSum pl qs t)) ∧
      mapGet (calculateStats windRecords windCatalog).topicBreakdown "wind" =
        some (7, 10) := by
  intro pl qs
  obtain ⟨h1, h2, h3, h4, h5⟩ :=
    foldl_statsStep_counts pl qs ⟨0, 0, 0, 0, 0, []⟩
  refine ⟨?_, ?_, ?_, ?_, ?_, ?_⟩
  · show (qs.foldl (statsStep pl) ⟨0, 0, 0, 0, 0, []⟩).newC = _
    rw [h1]
    simp
  · show (qs.foldl (statsStep pl) ⟨0, 0, 0, 0, 0, []⟩).learnC = _
    rw [h2]
    simp
  · show (qs.foldl (statsStep pl) ⟨0, 0, 0, 0, 0, []⟩).mastC = _
    rw [h3]
    simp
  · show (if (qs.foldl (statsStep pl) ⟨0, 0, 0, 0, 0, []⟩).totA > 0 then
        ((qs.foldl (statsStep pl) ⟨0, 0, 0, 0, 0, []⟩).totC : ℚ) /
          ((qs.foldl (statsStep pl) ⟨0, 0, 0, 0, 0, []⟩).totA : ℚ)
      else 0) = _
    rw [h4, h5]
    simp
  · intro t
    show mapGet (qs.foldl (statsStep pl) ⟨0, 0, 0, 0, 0, []⟩).breakdown t = _
    rw [foldl_statsStep_breakdown pl t qs]
    simp only [mapGet, Option.getD_none, Nat.zero_add]
  · decide
